import Mathlib

/-!
Shallow embedding of `RAGFlow.query` from `src/data_gemma/rag.py`.

The flow composes four injected collaborators (question LLM, answer LLM,
data fetcher, optional validator) and opaque prompt templates.  Those live
outside `src/` (modules `base`, `prompts`, `datacommons`, `validate`), so
they are modelled as opaque function parameters of a configuration record,
and the data carried across the interfaces is modelled from the spec.
Everything in `rag.py` itself (question extraction, retrieval fallback,
table assembly, retry, result packaging) is translated directly.
-/

namespace RAG

/-- Modelled from the spec: `base`'s LLM call record is not under `src/`;
per spec §3/§6 it captures one request/response exchange, and the LLM
interface is `query(promptText) -> response` exposing a `.response` text
field.  An LLM collaborator is a pure function `String → String` from
prompt text to response text, and a recorded call keeps both. -/
structure LLMCall where
  prompt : String
  response : String
  deriving DecidableEq, Repr

/-- Modelled from the spec: the retrieval response entity (`datacommons`
module, not under `src/`) exposes `.table` (presence flag), `.title`,
`.answer()` (rendered text) and a mutable `.id` (spec §3/§6).  The
rendered answer is a plain field since `answer()` takes no input. -/
structure RetrievalResponse where
  table : Bool
  title : String
  answer : String
  id : Nat
  deriving DecidableEq, Repr

/-- Modelled from the spec: `base.FlowResponse` is not under `src/`; per
spec §3/§6 its fields are an optional main text, an optional tables text,
the list of LLM call records, an optional retrieval duration and an
optional list of retrieval responses.  Fields not passed at a
construction site in `rag.py` stay at their absent default (`none`). -/
structure FlowResponse where
  mainText : Option String := none
  tablesStr : Option String := none
  llmCalls : List LLMCall := []
  dcDurationSecs : Option Nat := none
  dcCalls : Option (List RetrievalResponse) := none
  deriving DecidableEq, Repr

/-- Configuration of one `RAGFlow` instance together with its injected
collaborators, mirroring `RAGFlow.__init__` and the external interfaces
of spec §6.  The fetcher (`data_fetcher.calln`, with its own `table` flag
already applied) may fail with an exception, modelled as `Except`; the
mapping is an association list in iteration order.  The validator
(`validate.run_validation`) returns the new mapping and the calls it
appends to the shared call list.  The prompt templates (`prompts` module)
are opaque formatting functions.  `dcDuration` is the wall-clock duration
measured around the fetch; real time is not modelled, so the measured
value is an opaque parameter. -/
structure RAGConfig where
  llmQuestion : String → String
  llmAnswer : String → String
  fetch : List String → Except String (List (String × RetrievalResponse))
  inContext : Bool
  metricsList : String
  validateDcResponses : Bool
  validator : List (String × RetrievalResponse) →
    List (String × RetrievalResponse) × List LLMCall
  promptInContextWithVars : String → String → String
  promptInContext : String → String
  promptFineTuned : String → String
  promptFinalAnswer : String → String → String
  dcDuration : Nat

/-- `_MAX_QUESTIONS = 25` in `rag.py`. -/
def MAX_QUESTIONS : Nat := 25

/-- Python `str.strip()` on a character list: drop whitespace from both
ends (Python strips a slightly larger Unicode whitespace set; the claims
only involve ASCII whitespace and newlines, covered by
`Char.isWhitespace`). -/
def stripChars (l : List Char) : List Char :=
  ((l.dropWhile Char.isWhitespace).reverse.dropWhile Char.isWhitespace).reverse

/-- Python `q.strip()`. -/
def pyStrip (s : String) : String :=
  String.mk (stripChars s.data)

/-- Python `s.split('\n')` on a character list: cut at every occurrence of
`c`, keeping empty pieces ("".split gives one empty piece). -/
def splitOnCharAux (c : Char) : List Char → List Char → List (List Char)
  | [], acc => [acc.reverse]
  | x :: xs, acc =>
    if x = c then acc.reverse :: splitOnCharAux c xs []
    else splitOnCharAux c xs (x :: acc)

/-- Python `ques_resp.response.split('\n')`. -/
def splitLines (s : String) : List String :=
  (splitOnCharAux '\n' s.data []).map String.mk

/-- `pat` is a prefix of the second list. -/
def leadsWith : List Char → List Char → Bool
  | [], _ => true
  | _ :: _, [] => false
  | p :: ps, x :: xs => (p = x) && leadsWith ps xs

/-- `pat` occurs as a contiguous substring of the second list. -/
def hasSub (pat : List Char) : List Char → Bool
  | [] => leadsWith pat []
  | x :: xs => leadsWith pat (x :: xs) || hasSub pat xs

/-- Python `list(set(questions))` keeps one copy of each distinct string;
its order is unspecified (spec §4.1 step 2 flags this), so the model
fixes first-occurrence order.  All claims proved about it are
order-independent. -/
def dedupAux : List String → List String → List String
  | [], _ => []
  | q :: qs, seen =>
    if q ∈ seen then dedupAux qs seen else q :: dedupAux qs (q :: seen)

/-- `rag.py` lines 79-80:
`questions = [q.strip() for q in ques_resp.response.split('\n') if q.strip()]`
then `questions = list(set(questions))[:_MAX_QUESTIONS]`. -/
def questionsOf (respText : String) : List String :=
  let stripped := (splitLines respText).map pyStrip
  let kept := stripped.filter (fun q => q ≠ "")
  (dedupAux kept []).take MAX_QUESTIONS

/-- `f'Table {tidx}: {resp.answer()}'` (`rag.py` line 103). -/
def tablePart (tidx : Nat) (a : String) : String :=
  "Table " ++ toString tidx ++ ": " ++ a

/-- Python `'[NO ANSWER]' in s`: `s` contains the literal marker as a
contiguous substring. -/
def noAnswerIn (s : String) : Bool :=
  hasSub "[NO ANSWER]".data s.data

/-- The table-assembly loop of `rag.py` lines 97-106, carrying the
`table_titles` set (as a list queried by membership) and the running
count `n = len(dc_calls)` so far.  Returns `(table_parts, dc_calls)`;
each appended response is the input response with its `id` set to the
1-based index `tidx`. -/
def assembleGo :
    List RetrievalResponse → List String → Nat →
      List String × List RetrievalResponse
  | [], _, _ => ([], [])
  | r :: rs, titles, n =>
    let tidx := n + 1
    let isNew := r.table && !(titles.contains r.title)
    let rest := assembleGo rs (if isNew then r.title :: titles else titles) tidx
    (if isNew then tablePart tidx r.answer :: rest.1 else rest.1,
     { r with id := tidx } :: rest.2)

/-- Step 1: the prompt sent to the question LLM (`rag.py` lines 55-73):
in-context with a non-empty metrics list, plain in-context, or
fine-tuned. -/
def quesPromptOf (cfg : RAGConfig) (q : String) : String :=
  if cfg.inContext then
    if cfg.metricsList ≠ "" then cfg.promptInContextWithVars cfg.metricsList q
    else cfg.promptInContext q
  else cfg.promptFineTuned q

/-- The question LLM's response text for this query. -/
def quesTextOf (cfg : RAGConfig) (q : String) : String :=
  cfg.llmQuestion (quesPromptOf cfg q)

/-- The recorded question-generation call (`llm_calls = [ques_resp]`). -/
def quesCallOf (cfg : RAGConfig) (q : String) : LLMCall :=
  ⟨quesPromptOf cfg q, quesTextOf cfg q⟩

/-- Step 3 (`rag.py` lines 84-89): the raw mapping from the fetcher; on
any exception the warning is logged and the result is the empty
mapping. -/
def q2respRaw (cfg : RAGConfig) (q : String) :
    List (String × RetrievalResponse) :=
  match cfg.fetch (questionsOf (quesTextOf cfg q)) with
  | Except.ok m => m
  | Except.error _ => []

/-- Step 4 (`rag.py` lines 92-95): the mapping after optional
validation. -/
def q2respOf (cfg : RAGConfig) (q : String) :
    List (String × RetrievalResponse) :=
  if cfg.validateDcResponses then (cfg.validator (q2respRaw cfg q)).1
  else q2respRaw cfg q

/-- The call list after validation: the question call plus whatever the
validator appended to the shared list. -/
def callsAfterRetrievalOf (cfg : RAGConfig) (q : String) : List LLMCall :=
  if cfg.validateDcResponses then
    [quesCallOf cfg q] ++ (cfg.validator (q2respRaw cfg q)).2
  else [quesCallOf cfg q]

/-- The retrieval responses in the mapping's value iteration order
(`q2resp.values()`). -/
def respsOf (cfg : RAGConfig) (q : String) : List RetrievalResponse :=
  (q2respOf cfg q).map Prod.snd

/-- `table_parts` after the assembly loop. -/
def tablePartsOf (cfg : RAGConfig) (q : String) : List String :=
  (assembleGo (respsOf cfg q) [] 0).1

/-- `dc_calls` after the assembly loop. -/
def dcCallsOf (cfg : RAGConfig) (q : String) : List RetrievalResponse :=
  (assembleGo (respsOf cfg q) [] 0).2

/-- `tables_str` (`rag.py` lines 107-113): the newline-joined table parts
when any exist, else the empty string. -/
def tablesStrOf (cfg : RAGConfig) (q : String) : String :=
  if tablePartsOf cfg q ≠ [] then
    String.intercalate "\n" (tablePartsOf cfg q)
  else ""

/-- `final_prompt`: the final-answer template applied to the query and the
joined tables when any table part exists, else the raw query verbatim. -/
def finalPromptOf (cfg : RAGConfig) (q : String) : String :=
  if tablePartsOf cfg q ≠ [] then
    cfg.promptFinalAnswer q (String.intercalate "\n" (tablePartsOf cfg q))
  else q

/-- The first answer-LLM response text (`rag.py` line 116). -/
def ansText1Of (cfg : RAGConfig) (q : String) : String :=
  cfg.llmAnswer (finalPromptOf cfg q)

/-- The possibly-retried final answer text (`rag.py` lines 120-123): when
the first response contains `[NO ANSWER]` the answer LLM is queried once
more with the unmodified original query and that response is used. -/
def finalAnsTextOf (cfg : RAGConfig) (q : String) : String :=
  if noAnswerIn (ansText1Of cfg q) then cfg.llmAnswer q
  else ansText1Of cfg q

/-- The full call list at the end of step 6: question call, validator
calls if any, the first answer call, and the retry call when the first
answer contained `[NO ANSWER]`. -/
def finalCallsOf (cfg : RAGConfig) (q : String) : List LLMCall :=
  callsAfterRetrievalOf cfg q ++ [⟨finalPromptOf cfg q, ansText1Of cfg q⟩] ++
    (if noAnswerIn (ansText1Of cfg q) then [⟨q, cfg.llmAnswer q⟩] else [])

/-- `RAGFlow.query` (`rag.py` lines 49-136).  Early exit 1: empty
question response (line 76-77).  Early exit 2: empty (possibly retried)
final answer (lines 125-128).  Otherwise the full result (lines
130-136). -/
def query (cfg : RAGConfig) (q : String) : FlowResponse :=
  if quesTextOf cfg q = "" then
    { llmCalls := [quesCallOf cfg q] }
  else if finalAnsTextOf cfg q = "" then
    { llmCalls := finalCallsOf cfg q, dcDurationSecs := some cfg.dcDuration }
  else
    { mainText := some (finalAnsTextOf cfg q),
      tablesStr := some (tablesStrOf cfg q),
      llmCalls := finalCallsOf cfg q,
      dcDurationSecs := some cfg.dcDuration,
      dcCalls := some (dcCallsOf cfg q) }

/-- A concrete configuration for evaluating the flow on closed inputs:
the question LLM always answers `qt`, the answer LLM is `ansFn`, the
fetcher succeeds with the fixed mapping `m`, validation is off and the
prompt templates are simple concrete formatters. -/
def mkCfg (qt : String) (ansFn : String → String)
    (m : List (String × RetrievalResponse)) : RAGConfig :=
  { llmQuestion := fun _ => qt
    llmAnswer := ansFn
    fetch := fun _ => Except.ok m
    inContext := false
    metricsList := ""
    validateDcResponses := false
    validator := fun m' => (m', [])
    promptInContextWithVars := fun _ s => s
    promptInContext := fun s => s
    promptFineTuned := fun s => s
    promptFinalAnswer := fun s t => s ++ "|" ++ t
    dcDuration := 7 }

/-- A title counts as already used when some earlier table-carrying
response bears it. -/
def seenBefore (pre : List RetrievalResponse) (t : String) : Bool :=
  pre.any (fun r => r.table && r.title == t)

/-- Table-parts assembly as the spec words it (spec §3 "Table parts" and
§4.1 step 5): one line per retrieval response whose table is present and
whose title is not borne by any earlier table-carrying response
(first-seen-title-wins, by title not by content), numbered with the
response's 1-based position in iteration order. -/
def specLines (rs : List RetrievalResponse) : List String :=
  rs.enum.filterMap fun p =>
    if p.2.table && !(seenBefore (rs.take p.1) p.2.title) then
      some (tablePart (p.1 + 1) p.2.answer)
    else none

/-- Recursive restatement of `specLines` carrying the already-processed
prefix; proof intermediary between the assembly loop and `specLines`. -/
def specLinesRec : List RetrievalResponse → List RetrievalResponse → List String
  | _, [] => []
  | pre, r :: rs =>
    (if r.table && !(seenBefore pre r.title) then
        [tablePart (pre.length + 1) r.answer]
      else []) ++ specLinesRec (pre ++ [r]) rs

/-- C2.  For every query, if the question-generation LLM returns an empty
response text, `query` returns a `FlowResponse` whose call list is exactly
the one recorded question call, with no main text, no tables text, no
retrieval duration and no retrieval-results list (`rag.py` lines
75-77). -/
theorem c2_empty_question_early_exit (cfg : RAGConfig) (q : String)
    (h : quesTextOf cfg q = "") :
    query cfg q = ⟨none, none, [quesCallOf cfg q], none, none⟩ := by
  simp [query, h]

theorem c2_witness :
    query (mkCfg "" (fun _ => "a") []) "what" =
      ⟨none, none, [⟨"what", ""⟩], none, none⟩ :=
  c2_empty_question_early_exit (mkCfg "" (fun _ => "a") []) "what" rfl

/-- C8.  For every query that passes step 1, if the (possibly retried)
final answer text is empty, `query` returns the accumulated call list and
the retrieval duration but no main text, no tables text and no
retrieval-results list (`rag.py` lines 125-128). -/
theorem c8_empty_answer_early_exit (cfg : RAGConfig) (q : String)
    (h1 : quesTextOf cfg q ≠ "") (h2 : finalAnsTextOf cfg q = "") :
    query cfg q = ⟨none, none, finalCallsOf cfg q, some cfg.dcDuration, none⟩ := by
  simp [query, h1, h2]

theorem c8_witness :
    query (mkCfg "q1" (fun _ => "") []) "x" =
      ⟨none, none, finalCallsOf (mkCfg "q1" (fun _ => "") []) "x",
        some 7, none⟩ :=
  c8_empty_answer_early_exit (mkCfg "q1" (fun _ => "") []) "x"
    (by decide) rfl

/-- C1 (amended).  On the final (non-early-exit) return the
retrieval-results sequence is always included, whether or not any table
part was produced; it is absent only on the two early exits (`rag.py`
lines 130-136 pass `dc_calls` unconditionally). -/
theorem c1_dc_calls_on_final_return (cfg : RAGConfig) (q : String)
    (h1 : quesTextOf cfg q ≠ "") (h2 : finalAnsTextOf cfg q ≠ "") :
    (query cfg q).dcCalls = some (dcCallsOf cfg q) := by
  simp [query, h1, h2]

theorem c1_witness :
    (query (mkCfg "q1" (fun _ => "final") [("q1", ⟨false, "T", "A", 0⟩)]) "x").dcCalls =
      some (dcCallsOf (mkCfg "q1" (fun _ => "final") [("q1", ⟨false, "T", "A", 0⟩)]) "x") :=
  c1_dc_calls_on_final_return
    (mkCfg "q1" (fun _ => "final") [("q1", ⟨false, "T", "A", 0⟩)]) "x"
    (by decide) (by decide)

/-- C1 counterexample to the claim as stated: a run in which no table
part was produced (the single retrieval response carries no table), the
flow reaches the final return with non-empty answer text, and the
returned `FlowResponse` still includes the retrieval-results sequence. -/
theorem c1_counterexample :
    tablePartsOf (mkCfg "q1" (fun _ => "final") [("q1", ⟨false, "T", "A", 0⟩)]) "x" = [] ∧
    (query (mkCfg "q1" (fun _ => "final") [("q1", ⟨false, "T", "A", 0⟩)]) "x").mainText =
      some "final" ∧
    (query (mkCfg "q1" (fun _ => "final") [("q1", ⟨false, "T", "A", 0⟩)]) "x").dcCalls =
      some [⟨false, "T", "A", 1⟩] := by
  refine ⟨by decide, by decide, by decide⟩

/-- C4.  If the data fetcher's batch lookup raises, `query` does not
propagate it: the whole flow behaves exactly as if the fetcher had
returned an empty mapping (`rag.py` lines 84-89).  (In the model the
fetcher's failure is an `Except.error`; `query` is total, so no failure
escapes.) -/
theorem c4_fetcher_failure_recovered (cfg : RAGConfig) (q : String)
    (e : String)
    (h : cfg.fetch (questionsOf (quesTextOf cfg q)) = Except.error e) :
    query cfg q = query { cfg with fetch := fun _ => Except.ok [] } q := by
  have h1 : q2respRaw cfg q = [] := by
    simp [q2respRaw, h]
  have h2 : q2respRaw { cfg with fetch := fun _ => Except.ok [] } q = [] := rfl
  simp only [query, finalAnsTextOf, ansText1Of, finalPromptOf, finalCallsOf,
    callsAfterRetrievalOf, tablesStrOf, tablePartsOf, dcCallsOf, respsOf,
    q2respOf]
  rw [h1, h2]
  rfl

theorem c4_witness :
    query { mkCfg "q1" (fun _ => "ans") [] with
              fetch := fun _ => Except.error "boom" } "x" =
      query { { mkCfg "q1" (fun _ => "ans") [] with
                  fetch := fun _ => Except.error "boom" } with
                fetch := fun _ => Except.ok [] } "x" :=
  c4_fetcher_failure_recovered
    { mkCfg "q1" (fun _ => "ans") [] with fetch := fun _ => Except.error "boom" }
    "x" "boom" rfl

/-- Elements produced by `dedupAux` come from the input list and avoid the
`seen` accumulator. -/
theorem mem_dedupAux {x : String} :
    ∀ {l seen : List String}, x ∈ dedupAux l seen → x ∈ l ∧ x ∉ seen := by
  intro l
  induction l with
  | nil => intro seen h; simp [dedupAux] at h
  | cons q qs ih =>
    intro seen h
    simp only [dedupAux] at h
    by_cases hq : q ∈ seen
    · rw [if_pos hq] at h
      obtain ⟨h1, h2⟩ := ih h
      exact ⟨List.mem_cons_of_mem _ h1, h2⟩
    · rw [if_neg hq] at h
      rcases List.mem_cons.mp h with h | h
      · subst h; exact ⟨List.mem_cons_self _ _, hq⟩
      · obtain ⟨h1, h2⟩ := ih h
        exact ⟨List.mem_cons_of_mem _ h1,
          fun hx => h2 (List.mem_cons_of_mem _ hx)⟩

/-- `dedupAux` never emits a string twice. -/
theorem dedupAux_nodup : ∀ (l seen : List String), (dedupAux l seen).Nodup := by
  intro l
  induction l with
  | nil => intro seen; simp [dedupAux]
  | cons q qs ih =>
    intro seen
    simp only [dedupAux]
    by_cases hq : q ∈ seen
    · rw [if_pos hq]; exact ih seen
    · rw [if_neg hq]
      refine List.nodup_cons.mpr ⟨fun hx => ?_, ih _⟩
      exact (mem_dedupAux hx).2 (List.mem_cons_self _ _)

/-- `dropWhile` consumes the whole list when every element satisfies the
predicate. -/
theorem dropWhile_all_eq_nil {α : Type} {p : α → Bool} :
    ∀ {l : List α}, (∀ x ∈ l, p x = true) → l.dropWhile p = [] := by
  intro l
  induction l with
  | nil => intro _; rfl
  | cons x xs ih =>
    intro h
    rw [List.dropWhile_cons, if_pos (h x (List.mem_cons_self _ _))]
    exact ih fun y hy => h y (List.mem_cons_of_mem _ hy)

/-- The head surviving `dropWhile` fails the predicate. -/
theorem dropWhile_head_not {α : Type} {p : α → Bool} :
    ∀ {l : List α} {x xs}, l.dropWhile p = x :: xs → p x = false := by
  intro l
  induction l with
  | nil => intro x xs h; simp at h
  | cons y ys ih =>
    intro x xs h
    rw [List.dropWhile_cons] at h
    by_cases hy : p y = true
    · rw [if_pos hy] at h; exact ih h
    · rw [if_neg hy] at h
      obtain ⟨rfl, rfl⟩ := List.cons.injEq .. ▸ h
      exact Bool.eq_false_iff.mpr hy

/-- Stripping an all-whitespace string yields the empty string. -/
theorem pyStrip_all_ws {s : String} (h : s.data.all Char.isWhitespace = true) :
    pyStrip s = "" := by
  have h0 : s.data.dropWhile Char.isWhitespace = [] :=
    dropWhile_all_eq_nil (by simpa using h)
  unfold pyStrip stripChars
  rw [h0]
  rfl

/-- A non-empty stripped character list contains a non-whitespace
character. -/
theorem stripChars_has_non_ws {l : List Char} (h : stripChars l ≠ []) :
    ∃ c ∈ stripChars l, c.isWhitespace = false := by
  rcases hC : (l.dropWhile Char.isWhitespace).reverse.dropWhile Char.isWhitespace
    with _ | ⟨x, xs⟩
  · exact absurd (by simp [stripChars, hC]) h
  · refine ⟨x, ?_, dropWhile_head_not hC⟩
    simp [stripChars, hC]

/-- C3.  For every question-LLM response text, the question set handed to
the data fetcher has no duplicates, has at most 25 entries, and contains
no empty and no whitespace-only string (every entry has a non-whitespace
character).  (`rag.py` lines 79-80.) -/
theorem c3_questions_wellformed (s : String) :
    (questionsOf s).Nodup ∧ (questionsOf s).length ≤ MAX_QUESTIONS ∧
      ∀ q ∈ questionsOf s, q ≠ "" ∧ ∃ c ∈ q.data, c.isWhitespace = false := by
  refine ⟨?_, ?_, ?_⟩
  · exact (List.take_sublist _ _).nodup (dedupAux_nodup _ _)
  · simp only [questionsOf]
    exact List.length_take_le _ _
  · intro q hq
    simp only [questionsOf] at hq
    have hq' := (List.take_sublist _ _).subset hq
    have hkept := (mem_dedupAux hq').1
    obtain ⟨hmem, hpred⟩ := List.mem_filter.mp hkept
    have hne : q ≠ "" := of_decide_eq_true hpred
    obtain ⟨p, _, rfl⟩ := List.mem_map.mp hmem
    refine ⟨hne, ?_⟩
    have hnil : stripChars p.data ≠ [] := by
      intro h0
      exact hne (by unfold pyStrip; rw [h0])
    simpa [pyStrip] using stripChars_has_non_ws hnil

theorem c3_witness :
    (questionsOf "a\na\n \nb").Nodup ∧
      (questionsOf "a\na\n \nb").length ≤ MAX_QUESTIONS :=
  ⟨(c3_questions_wellformed "a\na\n \nb").1,
   (c3_questions_wellformed "a\na\n \nb").2.1⟩

/-- The call list at the end of step 6 always holds at least the question
call and one answer call. -/
theorem two_le_finalCalls (cfg : RAGConfig) (q : String) :
    2 ≤ (finalCallsOf cfg q).length := by
  by_cases hv : cfg.validateDcResponses = true <;>
    by_cases hn : noAnswerIn (ansText1Of cfg q) = true <;>
      simp [finalCallsOf, callsAfterRetrievalOf, hv, hn]

/-- C9.  A question-LLM response that is non-empty but consists only of
whitespace (every newline-separated piece is all-whitespace) does not
take the step-1 early exit: the question list handed to the fetcher is
empty, a retrieval duration is recorded, and at least the question call
and one answer call are made (`rag.py` lines 76-90). -/
theorem c9_whitespace_questions_no_exit (cfg : RAGConfig) (q : String)
    (h1 : quesTextOf cfg q ≠ "")
    (h2 : ∀ p ∈ splitLines (quesTextOf cfg q),
      p.data.all Char.isWhitespace = true) :
    questionsOf (quesTextOf cfg q) = [] ∧
      (query cfg q).dcDurationSecs = some cfg.dcDuration ∧
      2 ≤ (query cfg q).llmCalls.length := by
  have hq : questionsOf (quesTextOf cfg q) = [] := by
    simp only [questionsOf]
    have hf : ((splitLines (quesTextOf cfg q)).map pyStrip).filter
        (fun q => q ≠ "") = [] := by
      rw [List.filter_eq_nil_iff]
      intro a ha
      obtain ⟨p, hp, rfl⟩ := List.mem_map.mp ha
      simp [pyStrip_all_ws (h2 p hp)]
    rw [hf]
    rfl
  have hl : (query cfg q).llmCalls = finalCallsOf cfg q := by
    by_cases h3 : finalAnsTextOf cfg q = "" <;> simp [query, h1, h3]
  refine ⟨hq, ?_, ?_⟩
  · by_cases h3 : finalAnsTextOf cfg q = "" <;> simp [query, h1, h3]
  · rw [hl]; exact two_le_finalCalls cfg q

theorem c9_witness :
    questionsOf (quesTextOf (mkCfg " \n\t " (fun _ => "done") []) "x") = [] ∧
      (query (mkCfg " \n\t " (fun _ => "done") []) "x").dcDurationSecs = some 7 ∧
      2 ≤ (query (mkCfg " \n\t " (fun _ => "done") []) "x").llmCalls.length :=
  c9_whitespace_questions_no_exit (mkCfg " \n\t " (fun _ => "done") []) "x"
    (by decide) (by decide)

/-- C7.  If the flow reaches step 6 and the first answer-LLM response
contains `[NO ANSWER]`, exactly one retry is made with the unmodified
original query, both answer calls are recorded after the earlier calls,
and the retry's response text (even if it again contains the marker or is
empty) is what determines the outcome; no further retry occurs (`rag.py`
lines 116-123). -/
theorem c7_no_answer_retry (cfg : RAGConfig) (q : String)
    (h1 : quesTextOf cfg q ≠ "")
    (h2 : noAnswerIn (ansText1Of cfg q) = true) :
    (query cfg q).llmCalls =
      callsAfterRetrievalOf cfg q ++
        [⟨finalPromptOf cfg q, ansText1Of cfg q⟩, ⟨q, cfg.llmAnswer q⟩] ∧
      finalAnsTextOf cfg q = cfg.llmAnswer q ∧
      (query cfg q).mainText =
        (if cfg.llmAnswer q = "" then none else some (cfg.llmAnswer q)) := by
  have hf : finalAnsTextOf cfg q = cfg.llmAnswer q := by
    simp [finalAnsTextOf, h2]
  have hc : finalCallsOf cfg q =
      callsAfterRetrievalOf cfg q ++
        [⟨finalPromptOf cfg q, ansText1Of cfg q⟩, ⟨q, cfg.llmAnswer q⟩] := by
    simp [finalCallsOf, h2]
  have hl : (query cfg q).llmCalls = finalCallsOf cfg q := by
    by_cases h3 : finalAnsTextOf cfg q = "" <;> simp [query, h1, h3]
  refine ⟨hl.trans hc, hf, ?_⟩
  by_cases h3 : cfg.llmAnswer q = ""
  · have h4 : finalAnsTextOf cfg q = "" := hf.trans h3
    simp [query, h1, h4, h3]
  · have h4 : finalAnsTextOf cfg q ≠ "" := by rw [hf]; exact h3
    simp [query, h1, h4, hf, h3]

theorem c7_witness :
    (query (mkCfg "q1" (fun _ => "[NO ANSWER]") []) "x").llmCalls =
      callsAfterRetrievalOf (mkCfg "q1" (fun _ => "[NO ANSWER]") []) "x" ++
        [⟨finalPromptOf (mkCfg "q1" (fun _ => "[NO ANSWER]") []) "x",
          ansText1Of (mkCfg "q1" (fun _ => "[NO ANSWER]") []) "x"⟩,
         ⟨"x", "[NO ANSWER]"⟩] ∧
      finalAnsTextOf (mkCfg "q1" (fun _ => "[NO ANSWER]") []) "x" = "[NO ANSWER]" ∧
      (query (mkCfg "q1" (fun _ => "[NO ANSWER]") []) "x").mainText =
        (if ("[NO ANSWER]" : String) = "" then none else some "[NO ANSWER]") :=
  c7_no_answer_retry (mkCfg "q1" (fun _ => "[NO ANSWER]") []) "x"
    (by decide) (by decide)

/-- C10.  With response validation disabled, every returned call list has
length 1, 2 or 3: exactly 1 on the empty-question-response exit, exactly
3 when the first answer response contained `[NO ANSWER]`, and its first
entry is always the question-generation call (`rag.py` lines 75-123). -/
theorem c10_call_list_shape (cfg : RAGConfig) (q : String)
    (hv : cfg.validateDcResponses = false) :
    (query cfg q).llmCalls.head? = some (quesCallOf cfg q) ∧
      ((query cfg q).llmCalls.length = 1 ∨ (query cfg q).llmCalls.length = 2 ∨
        (query cfg q).llmCalls.length = 3) ∧
      ((query cfg q).llmCalls.length = 1 ↔ quesTextOf cfg q = "") ∧
      ((query cfg q).llmCalls.length = 3 ↔
        (quesTextOf cfg q ≠ "" ∧ noAnswerIn (ansText1Of cfg q) = true)) := by
  have hA : callsAfterRetrievalOf cfg q = [quesCallOf cfg q] := by
    simp [callsAfterRetrievalOf, hv]
  by_cases h1 : quesTextOf cfg q = ""
  · simp [query, h1]
  · have hl : (query cfg q).llmCalls = finalCallsOf cfg q := by
      by_cases h3 : finalAnsTextOf cfg q = "" <;> simp [query, h1, h3]
    rw [hl]
    by_cases hn : noAnswerIn (ansText1Of cfg q) = true
    · simp [finalCallsOf, hA, hn, h1]
    · simp [finalCallsOf, hA, hn, h1]

theorem c10_witness :
    (query (mkCfg "q1" (fun _ => "done") []) "x").llmCalls.head? =
      some (quesCallOf (mkCfg "q1" (fun _ => "done") []) "x") ∧
      ((query (mkCfg "q1" (fun _ => "done") []) "x").llmCalls.length = 1 ∨
        (query (mkCfg "q1" (fun _ => "done") []) "x").llmCalls.length = 2 ∨
        (query (mkCfg "q1" (fun _ => "done") []) "x").llmCalls.length = 3) ∧
      ((query (mkCfg "q1" (fun _ => "done") []) "x").llmCalls.length = 1 ↔
        quesTextOf (mkCfg "q1" (fun _ => "done") []) "x" = "") ∧
      ((query (mkCfg "q1" (fun _ => "done") []) "x").llmCalls.length = 3 ↔
        (quesTextOf (mkCfg "q1" (fun _ => "done") []) "x" ≠ "" ∧
          noAnswerIn (ansText1Of (mkCfg "q1" (fun _ => "done") []) "x") = true)) :=
  c10_call_list_shape (mkCfg "q1" (fun _ => "done") []) "x" rfl

/-- The enumerated form of `specLines`, generalized over the processed
prefix, agrees with the recursive form. -/
theorem specLinesRec_eq_enumFrom :
    ∀ (rs pre : List RetrievalResponse),
      ((rs.enumFrom pre.length).filterMap fun p =>
          if p.2.table && !(seenBefore ((pre ++ rs).take p.1) p.2.title) then
            some (tablePart (p.1 + 1) p.2.answer)
          else none) = specLinesRec pre rs := by
  intro rs
  induction rs with
  | nil => intro pre; simp [specLinesRec]
  | cons r rs ih =>
    intro pre
    have htake : (pre ++ r :: rs).take pre.length = pre := List.take_left pre _
    have htail : (rs.enumFrom (pre.length + 1)).filterMap
        (fun p =>
          if p.2.table && !(seenBefore ((pre ++ r :: rs).take p.1) p.2.title) then
            some (tablePart (p.1 + 1) p.2.answer)
          else none) = specLinesRec (pre ++ [r]) rs := by
      have h := ih (pre ++ [r])
      simpa [List.append_assoc] using h
    simp only [List.enumFrom_cons, List.filterMap_cons, htake, htail]
    by_cases hc : (r.table && !(seenBefore pre r.title)) = true <;>
      simp [specLinesRec, hc]

/-- Left conjunct of a true Boolean conjunction. -/
theorem and_true_left {a b : Bool} (h : (a && b) = true) : a = true := by
  cases a
  · simp at h
  · rfl

/-- Right conjunct of a true Boolean conjunction. -/
theorem and_true_right {a b : Bool} (h : (a && b) = true) : b = true := by
  cases b
  · simp at h
  · rfl

/-- `seenBefore` over an extended prefix. -/
theorem seenBefore_append (pre : List RetrievalResponse)
    (r : RetrievalResponse) (t : String) :
    seenBefore (pre ++ [r]) t =
      (seenBefore pre t || (r.table && (r.title == t))) := by
  simp [seenBefore, List.any_append]

/-- Unfolding of the assembly loop when the head contributes a line. -/
theorem assembleGo_cons_pos {r : RetrievalResponse}
    {rs : List RetrievalResponse} {titles : List String} {n : Nat}
    (h : (r.table && !(titles.contains r.title)) = true) :
    assembleGo (r :: rs) titles n =
      (tablePart (n + 1) r.answer ::
          (assembleGo rs (r.title :: titles) (n + 1)).1,
        { r with id := n + 1 } ::
          (assembleGo rs (r.title :: titles) (n + 1)).2) := by
  have hr : r.table = true := and_true_left h
  have hn : r.title ∉ titles := by
    have := and_true_right h
    simpa using this
  simp [assembleGo, hr, hn]

/-- Unfolding of the assembly loop when the head contributes no line. -/
theorem assembleGo_cons_neg {r : RetrievalResponse}
    {rs : List RetrievalResponse} {titles : List String} {n : Nat}
    (h : (r.table && !(titles.contains r.title)) = false) :
    assembleGo (r :: rs) titles n =
      ((assembleGo rs titles (n + 1)).1,
        { r with id := n + 1 } :: (assembleGo rs titles (n + 1)).2) := by
  rcases Bool.and_eq_false_iff.mp h with h1 | h1
  · simp [assembleGo, h1]
  · have hm : r.title ∈ titles := by simpa using h1
    simp [assembleGo, hm]

/-- The `table_parts` produced by the assembly loop are exactly the
spec-side first-title-wins selection, relative to a processed prefix
`pre` whose used titles agree with the `titles` accumulator. -/
theorem assembleGo_fst_eq_specLinesRec :
    ∀ (rs pre : List RetrievalResponse) (seen : List String),
      (∀ t, seen.contains t = seenBefore pre t) →
      (assembleGo rs seen pre.length).1 = specLinesRec pre rs := by
  intro rs
  induction rs with
  | nil => intro pre seen _; rfl
  | cons r rs ih =>
    intro pre seen hseen
    have hL : (pre ++ [r]).length = pre.length + 1 := by simp
    have hcnd : (r.table && !(seen.contains r.title)) =
        (r.table && !(seenBefore pre r.title)) := by rw [hseen]
    cases hB : (r.table && !(seenBefore pre r.title)) with
    | true =>
      have hc' : (r.table && !(seen.contains r.title)) = true := hcnd.trans hB
      have hr : r.table = true := and_true_left hc'
      have hseen' : ∀ t, ((r.title :: seen).contains t) =
          seenBefore (pre ++ [r]) t := by
        intro t
        rw [List.contains_cons, seenBefore_append, hseen t, hr, Bool.true_and,
          Bool.or_comm, Bool.beq_comm]
      have hrest := ih (pre ++ [r]) (r.title :: seen) hseen'
      rw [hL] at hrest
      rw [assembleGo_cons_pos hc']
      simp [specLinesRec, hB, hrest]
    | false =>
      have hc' : (r.table && !(seen.contains r.title)) = false := hcnd.trans hB
      have hseen' : ∀ t, (seen.contains t) = seenBefore (pre ++ [r]) t := by
        intro t
        rw [seenBefore_append, hseen t]
        cases hx : (r.table && (r.title == t)) with
        | false => rw [Bool.or_false]
        | true =>
          have htt : r.title = t := by
            have := and_true_right hx
            simpa using this
          have hsb : seenBefore pre r.title = true := by
            rcases Bool.and_eq_false_iff.mp hB with h | h
            · rw [and_true_left hx] at h; cases h
            · simpa using h
          rw [← htt, hsb, Bool.true_or]
      have hrest := ih (pre ++ [r]) seen hseen'
      rw [hL] at hrest
      rw [assembleGo_cons_neg hc']
      simp [specLinesRec, hB, hrest]

/-- C5.  Table-part assembly deduplicates by title with
first-seen-title-wins: the produced `table_parts` are exactly the lines
described by `specLines` — one per table-carrying response whose title no
earlier table-carrying response bears, numbered by 1-based position
(`rag.py` lines 97-106). -/
theorem c5_table_parts_first_title_wins (cfg : RAGConfig) (q : String) :
    tablePartsOf cfg q = specLines (respsOf cfg q) := by
  have h1 : (assembleGo (respsOf cfg q) []
        ([] : List RetrievalResponse).length).1 =
      specLinesRec [] (respsOf cfg q) :=
    assembleGo_fst_eq_specLinesRec (respsOf cfg q) [] [] (fun _ => rfl)
  have h2 := specLinesRec_eq_enumFrom (respsOf cfg q) []
  exact h1.trans h2.symm

/-- The `dc_calls` list built by the assembly loop is the input sequence
with each response's `id` set to its 1-based position (offset by the
running count `n`). -/
theorem assembleGo_snd :
    ∀ (rs : List RetrievalResponse) (seen : List String) (n : Nat),
      (assembleGo rs seen n).2 =
        (rs.enumFrom n).map (fun p => { p.2 with id := p.1 + 1 }) := by
  intro rs
  induction rs with
  | nil => intro seen n; rfl
  | cons r rs ih =>
    intro seen n
    simp only [assembleGo, List.enumFrom_cons, List.map_cons]
    simp [ih]

/-- Every emitted table part is `Table {id}: {answer}` for some
table-carrying response in the emitted `dc_calls`. -/
theorem assembleGo_parts_from_calls :
    ∀ (rs : List RetrievalResponse) (seen : List String) (n : Nat),
      ∀ part ∈ (assembleGo rs seen n).1,
        ∃ r ∈ (assembleGo rs seen n).2,
          r.table = true ∧ part = tablePart r.id r.answer := by
  intro rs
  induction rs with
  | nil => intro seen n part h; simp [assembleGo] at h
  | cons r rs ih =>
    intro seen n part hp
    simp only [assembleGo] at hp ⊢
    by_cases hc : (r.table && !(seen.contains r.title)) = true
    · rw [if_pos hc] at hp
      rcases List.mem_cons.mp hp with h | h
      · refine ⟨{ r with id := n + 1 }, List.mem_cons_self _ _, ?_, ?_⟩
        · simpa using and_true_left hc
        · rw [h]
      · obtain ⟨r', hr', ht, he⟩ := ih _ (n + 1) part h
        exact ⟨r', List.mem_cons_of_mem _ hr', ht, he⟩
    · rw [if_neg hc] at hp
      obtain ⟨r', hr', ht, he⟩ := ih _ (n + 1) part hp
      exact ⟨r', List.mem_cons_of_mem _ hr', ht, he⟩

/-- C6.  After table assembly, the retrieval-results sequence is the
mapping's values in iteration order, each with its `id` set to its
1-based position, whether or not it contributed a table line; and every
emitted `Table {index}:` line carries the id of the response that
produced it (`rag.py` lines 100-106). -/
theorem c6_ids_are_positions (cfg : RAGConfig) (q : String) :
    dcCallsOf cfg q =
      (respsOf cfg q).enum.map (fun p => { p.2 with id := p.1 + 1 }) ∧
      ∀ part ∈ tablePartsOf cfg q,
        ∃ r ∈ dcCallsOf cfg q, r.table = true ∧
          part = tablePart r.id r.answer := by
  exact ⟨assembleGo_snd (respsOf cfg q) [] 0,
    assembleGo_parts_from_calls (respsOf cfg q) [] 0⟩

theorem c6_witness :
    dcCallsOf (mkCfg "q1" (fun _ => "done")
        [("q1", ⟨true, "T", "A", 0⟩), ("q2", ⟨false, "U", "B", 0⟩)]) "x" =
      ((respsOf (mkCfg "q1" (fun _ => "done")
        [("q1", ⟨true, "T", "A", 0⟩), ("q2", ⟨false, "U", "B", 0⟩)]) "x").enum.map
          (fun p => { p.2 with id := p.1 + 1 })) :=
  (c6_ids_are_positions (mkCfg "q1" (fun _ => "done")
    [("q1", ⟨true, "T", "A", 0⟩), ("q2", ⟨false, "U", "B", 0⟩)]) "x").1

end RAG
